import Mathlib

/-!
Shallow embedding of the netzob field-mutation and hash-relation core:
the `Mutator` lifecycle (`netzob/Fuzzing/Mutator.py`), the concrete
`StringMutator` (`netzob/Fuzzing/Mutators/StringMutator.py`) and the
`SHA2_512` hash relation
(`netzob/Model/Vocabulary/Domain/Variables/Leafs/Hashes/SHA2_512.py`),
together with theorems settling the specified properties.

Python exceptions are embedded with `Except String`; exception-raising
methods return the outcome together with the object state after the call
(assignments performed before a raise persist, exactly as in Python).
Machine words are `Nat` with explicit `% 2 ^ 64` where the Python code
relies on fixed-width digest arithmetic.
-/

namespace Netzob

/-- State of a `Mutator` object as initialised by `Mutator.__init__`
(Mutator.py lines 99-107): seed, resumable generator state, budget and
call counter, all Python integers. -/
structure MutatorState where
  seed : Int
  currentState : Int
  counterMax : Int
  currentCounter : Int
deriving Repr, DecidableEq

/-- Embedding of `Mutator.SEED_DEFAULT` (Mutator.py line 96). -/
def SEED_DEFAULT : Int := 10

/-- Embedding of `Mutator.COUNTER_MAX_DEFAULT` (Mutator.py line 97). -/
def COUNTER_MAX_DEFAULT : Int := 2 ^ 16

/-- Embedding of `Mutator.__init__` (Mutator.py lines 99-107). -/
def mkMutator (seed : Int) (counterMax : Int) : MutatorState :=
  { seed := seed, currentState := 0, counterMax := counterMax, currentCounter := 0 }

/-- Embedding of `Mutator.updateSeed` (Mutator.py lines 109-111): assigns
`self._seed` only. -/
def updateSeed (m : MutatorState) (seedValue : Int) : MutatorState :=
  { m with seed := seedValue }

/-- Embedding of `Mutator.resetCurrentCounter` (Mutator.py lines 157-162):
assigns `self._currentCounter = 0` only. -/
def resetCurrentCounter (m : MutatorState) : MutatorState :=
  { m with currentCounter := 0 }

/-- Embedding of `Mutator.reset` (Mutator.py lines 164-167): assigns
`self._currentCounter = 0` only. -/
def reset (m : MutatorState) : MutatorState :=
  { m with currentCounter := 0 }

/-- Embedding of `Mutator.generate` (Mutator.py lines 169-181): when
`self._currentCounter >= self.counterMax` an exception is raised before any
field assignment, so the object is returned unchanged; otherwise
`self._currentCounter += 1`. -/
def Mutator.generate (m : MutatorState) : Except String Unit × MutatorState :=
  if m.counterMax ≤ m.currentCounter then
    (Except.error "Max mutation counter reached", m)
  else
    (Except.ok (), { m with currentCounter := m.currentCounter + 1 })

/-- Repeated invocation of `Mutator.generate`: `generateSteps k m` performs
`k` successive `generate()` calls, stopping at the first raised exception
and returning the object state after the last call. -/
def generateSteps : Nat → MutatorState → Except String Unit × MutatorState
  | 0, m => (Except.ok (), m)
  | n + 1, m =>
    match Mutator.generate m with
    | (Except.ok _, m2) => generateSteps n m2
    | (Except.error e, m2) => (Except.error e, m2)

/-- State of a `StringMutator` object: the inherited `Mutator` state plus
the composed `StringPaddedGenerator`, kept abstract as a value of type `G`
(its code is outside the excerpt; the claims proved here only depend on
whether its `next` step is invoked). -/
structure StringMutatorState (G : Type) where
  base : MutatorState
  generator : G
deriving Repr, DecidableEq

/-- Embedding of `StringMutator.generate` (StringMutator.py lines 204-217):
first the inherited budget check (`super().generate()`, which raises with
the object unchanged when the budget is exhausted), then
`next(self.generator)` advancing the composed generator, then
`String.decode` on the produced value. The generator step `next` and the
codec `decode` are parameters: `StringPaddedGenerator` and the `String`
type are outside the excerpt. -/
def StringMutator.generate {G V : Type} (next : G → List Nat × G)
    (decode : List Nat → V) (s : StringMutatorState G) :
    Except String V × StringMutatorState G :=
  match Mutator.generate s.base with
  | (Except.error e, b) => (Except.error e, { s with base := b })
  | (Except.ok _, b) =>
    let r := next s.generator
    (Except.ok (decode r.1), { base := b, generator := r.2 })

/-- Embedding of `StringMutator.mutate` (StringMutator.py lines 219-220):
the body is exactly `raise NotImplementedError`, so no field is assigned
and the object is returned unchanged. -/
def StringMutator.mutate {G D : Type} (s : StringMutatorState G) (_data : D) :
    Except String (List Nat) × StringMutatorState G :=
  (Except.error "NotImplementedError", s)

/-- Minimal embedding of the Python values that can reach
`StringMutator.initializeGenerator` and the `naughtyStrings` setter:
`None`, `int`, `str`, `tuple` and `list` objects. -/
inductive PyVal where
  | pnone : PyVal
  | pint : Int → PyVal
  | pstr : String → PyVal
  | ptuple : List PyVal → PyVal
  | plist : List PyVal → PyVal
deriving Repr

/-- Embedding of `isinstance(v, list)` on the modelled values. -/
def isPyList : PyVal → Bool
  | PyVal.plist _ => true
  | _ => false

/-- Embedding of Python `max(a, b)` where `a` may be `None`: comparing
`None` with an `int` raises `TypeError` in Python 3. -/
def pymax : Option Int → Int → Except String Int
  | Option.none, _ => Except.error "TypeError"
  | Option.some a, b => Except.ok (max a b)

/-- Embedding of Python `min(a, b)` where `a` may be `None`: comparing
`None` with an `int` raises `TypeError` in Python 3. -/
def pymin : Option Int → Int → Except String Int
  | Option.none, _ => Except.error "TypeError"
  | Option.some a, b => Except.ok (min a b)

/-- Embedding of `StringMutator.DEFAULT_MIN_LENGTH` (StringMutator.py 117). -/
def DEFAULT_MIN_LENGTH : Int := 2

/-- Embedding of `StringMutator.DEFAULT_MAX_LENGTH` (StringMutator.py 118). -/
def DEFAULT_MAX_LENGTH : Int := 10

/-- Embedding of the effective-length-bounds computation of
`StringMutator.initializeGenerator` (StringMutator.py lines 147-162): the
caller interval is accepted only when it is a 2-tuple of ints; when the
domain dataType size is a 2-tuple of ints, `minLength` becomes
`max(minLength, int(dom_size[0] / 8))` and `maxLength` becomes
`min(maxLength, int(dom_size[1] / 8))` (Python `int(x / 8)` truncates
toward zero, i.e. `Int.tdiv`); when either bound is still `None`, the
defaults (2, 10) apply. The returned pair gives the `minValue`/`maxValue`
handed to the determinist length generator. -/
def initializeGeneratorBounds (interval : PyVal) (domSize : PyVal) :
    Except String (Int × Int) := do
  let fromInterval : Option Int × Option Int :=
    match interval with
    | PyVal.ptuple [PyVal.pint a, PyVal.pint b] => (Option.some a, Option.some b)
    | _ => (Option.none, Option.none)
  let afterDomain : Except String (Option Int × Option Int) :=
    match domSize with
    | PyVal.ptuple [PyVal.pint d0, PyVal.pint d1] => do
      let a ← pymax fromInterval.1 (Int.tdiv d0 8)
      let b ← pymin fromInterval.2 (Int.tdiv d1 8)
      pure (Option.some a, Option.some b)
    | _ => pure fromInterval
  let bounds ← afterDomain
  match bounds with
  | (Option.some a, Option.some b) => pure (a, b)
  | _ => pure (DEFAULT_MIN_LENGTH, DEFAULT_MAX_LENGTH)

/-- Modelled from the spec:
`StringPaddedGenerator.DEFAULT_NAUGHTY_STRINGS`, the built-in dictionary of
known-problematic strings (the code of
`netzob.Fuzzing.Generators.StringPaddedGenerator` is not in the excerpt;
the spec describes it as a curated dictionary containing empty, overlong,
control-character and command-injection payloads, and the claims proved
here depend only on its identity, not its exact contents). -/
def DEFAULT_NAUGHTY_STRINGS : List PyVal :=
  [PyVal.pstr "System(\"ls -al /\")", PyVal.pstr "`ls -al /`",
   PyVal.pstr "Kernel.exec(\"ls -al /\")", PyVal.pstr "", PyVal.pstr "%s%s%s%s%s"]

/-- Embedding of the `StringMutator.naughtyStrings` setter
(StringMutator.py lines 194-199): any value that is not a `list` is
replaced by the default naughty-string dictionary, and a `list` is stored
as given; no exception is ever raised. -/
def naughtyStringsSetter (naughtyStrings : PyVal) : PyVal :=
  if isPyList naughtyStrings then naughtyStrings
  else PyVal.plist DEFAULT_NAUGHTY_STRINGS

/-- Predicate used by the claim on `naughtyStrings`: a Python sequence
(list or tuple) whose elements are all strings. -/
def isSeqOfStrings : PyVal → Bool
  | PyVal.plist xs => xs.all fun x => match x with | PyVal.pstr _ => true | _ => false
  | PyVal.ptuple xs => xs.all fun x => match x with | PyVal.pstr _ => true | _ => false
  | _ => false

/-- Modelled from the spec: the Generator configuration of §3 — the code of
`netzob.Fuzzing.Generator`, `GeneratorFactory` and `DeterministGenerator`
is not in the excerpt. A Generator is configured by
`(seed, minValue, maxValue, bitsize, signed)`. -/
structure GeneratorConfig where
  seed : Int
  minValue : Int
  maxValue : Int
  bitsize : Nat
  signed : Bool
deriving Repr, DecidableEq

/-- Modelled from the spec (§3): a Generator owns its immutable
configuration plus an internal cursor into the produced sequence. -/
structure Generator where
  config : GeneratorConfig
  cursor : Nat
deriving Repr, DecidableEq

/-- Linear congruential step used to model the seeded pseudo-random walk of
the DeterministGenerator (the spec, §9, leaves the exact interleaving open;
determinism is the contract). -/
def lcg (x : Nat) : Nat :=
  (6364136223846793005 * x + 1442695040888963407) % 2 ^ 64

/-- Iterated linear congruential step. -/
def lcgIter : Nat → Nat → Nat
  | 0, x => x
  | n + 1, x => lcg (lcgIter n x)

/-- Width of the configured interval, at least 1 so that the walk is well
defined. -/
def spanOf (c : GeneratorConfig) : Nat :=
  max 1 (c.maxValue - c.minValue + 1).toNat

/-- Initial walk state derived from the full configuration. -/
def seedState (c : GeneratorConfig) : Nat :=
  (c.seed.natAbs + c.bitsize + cond c.signed 1 0) % 2 ^ 64

/-- Modelled from the spec (§4.2): the DeterministGenerator surfaces, in a
fixed seed-determined order, the boundary values `minValue`, `minValue+1`,
the midpoint, `maxValue-1`, `maxValue`, and then a seeded pseudo-random
walk of in-range values. Every element is a pure function of the
configuration and the position. -/
def deterministValue (c : GeneratorConfig) : Nat → Int
  | 0 => c.minValue
  | 1 => c.minValue + 1
  | 2 => (c.minValue + c.maxValue) / 2
  | 3 => c.maxValue - 1
  | 4 => c.maxValue
  | n + 5 => c.minValue + (lcgIter (n + 1) (seedState c) % spanOf c : Nat)

/-- Modelled from the spec (§4.2): `GeneratorFactory.buildGenerator` for the
determinist kind returns a fresh Generator holding the configuration with
its cursor at 0. -/
def buildGenerator (c : GeneratorConfig) : Generator :=
  { config := c, cursor := 0 }

/-- Modelled from the spec: one `next()` step of a Generator produces the
cursor-indexed element of the configuration-determined sequence and
advances the cursor; there is no other input. -/
def Generator.next (g : Generator) : Int × Generator :=
  (deterministValue g.config g.cursor,
   { config := g.config, cursor := g.cursor + 1 })

/-- First `n` values produced by successive `next()` calls. -/
def Generator.run : Generator → Nat → List Int
  | _, 0 => []
  | g, n + 1 => (Generator.next g).1 :: Generator.run (Generator.next g).2 n

/-- Big-endian base-`B` digits of `v` on exactly `k` digits, most
significant first; every digit is reduced modulo `B`. -/
def digitsBE (B : Nat) : Nat → Nat → List Nat
  | 0, _ => []
  | k + 1, v => (v / B ^ k % B) :: digitsBE B k (v % B ^ k)

/-- Value of a big-endian base-`B` digit list. -/
def valueBE (B : Nat) (l : List Nat) : Nat :=
  l.foldl (fun a d => B * a + d) 0

/-- Fuel-driven chunking: `chunksAux k f l` splits `l` into consecutive
pieces of `k + 1` elements (the last piece possibly shorter), provided the
fuel `f` is at least `l.length`. -/
def chunksAux {α : Type} (k : Nat) : Nat → List α → List (List α)
  | _, [] => []
  | 0, _ :: _ => []
  | f + 1, x :: xs => (x :: List.take k xs) :: chunksAux k f (List.drop k xs)

/-- Split a list into consecutive chunks of `k + 1` elements (the last
chunk possibly shorter). -/
def chunks {α : Type} (k : Nat) (l : List α) : List (List α) :=
  chunksAux k l.length l

/-- Modelled from the spec: unit-size parameter of the field dataType
(`netzob.Model.Vocabulary.Types.AbstractType.UnitSize`; the type library is
outside the excerpt). -/
inductive UnitSize where
  | size8 : UnitSize
  | size16 : UnitSize
  | size32 : UnitSize
  | size64 : UnitSize
deriving Repr, DecidableEq

/-- Number of bytes per unit. -/
def UnitSize.byteCount : UnitSize → Nat
  | UnitSize.size8 => 1
  | UnitSize.size16 => 2
  | UnitSize.size32 => 4
  | UnitSize.size64 => 8

/-- Modelled from the spec: endianness parameter of the field dataType. -/
inductive Endianness where
  | big : Endianness
  | little : Endianness
deriving Repr, DecidableEq

/-- Modelled from the spec: sign parameter of the field dataType. -/
inductive Sign where
  | signed : Sign
  | unsigned : Sign
deriving Repr, DecidableEq

/-- Declared type parameters of the output field's dataType (§6): unit
size, endianness and sign. -/
structure TypeParams where
  unitSize : UnitSize
  endianness : Endianness
  sign : Sign
deriving Repr, DecidableEq

/-- Byte order of a unit under an endianness: big endian keeps the byte
list, little endian reverses it. -/
def orient {α : Type} : Endianness → List α → List α
  | Endianness.big, l => l
  | Endianness.little, l => l.reverse

/-- Numeric value of one unit of bytes under an endianness. -/
def unitToVal (e : Endianness) (u : List Nat) : Nat :=
  valueBE 256 (orient e u)

/-- Bytes of one unit value under an endianness, on `k` bytes. -/
def valToUnit (e : Endianness) (k : Nat) (v : Nat) : List Nat :=
  orient e (digitsBE 256 k v)

/-- Typed (possibly signed) reading of a `bits`-wide unit value, as the
decode side reports it. -/
def toSigned (bits : Nat) (s : Sign) (v : Nat) : Int :=
  match s with
  | Sign.unsigned => (v : Int)
  | Sign.signed => if 2 ^ (bits - 1) ≤ v then (v : Int) - 2 ^ bits else (v : Int)

/-- Unsigned `bits`-wide value of a typed reading (two's complement). -/
def fromSigned (bits : Nat) (i : Int) : Nat :=
  (i % (2 ^ bits : Int)).toNat

/-- Modelled from the spec (§4.4 and §6): `TypeConverter.convert` from
`Raw` bytes to a `BitArray` under the output field's declared type
parameters — the digest bytes are grouped into units of
`unitSize.byteCount` bytes, each unit is read as an unsigned value in the
unit's byte order, and the value is written as `8 * byteCount` bits, most
significant bit first (the `TypeConverter`/`BitArray` code itself is
outside the excerpt; the spec requires the conversion to be exact and
round-trip-safe). -/
def rawToBitArray (p : TypeParams) (bytes : List Nat) : List Nat :=
  ((chunks (p.unitSize.byteCount - 1) bytes).map
    (fun u => digitsBE 2 (8 * p.unitSize.byteCount) (unitToVal p.endianness u))).flatten

/-- Modelled from the spec (§4.4 and §6): decoding a `BitArray` under the
same declared type parameters back to `Raw` bytes — the bits are grouped
into `8 * byteCount`-bit units, each unit value is read (MSB first),
interpreted through the declared sign as the typed value, and that value is
re-serialised into the unit's bytes in the declared byte order. -/
def bitArrayToRaw (p : TypeParams) (bits : List Nat) : List Nat :=
  ((chunks (8 * p.unitSize.byteCount - 1) bits).map
    (fun ub =>
      valToUnit p.endianness p.unitSize.byteCount
        (fromSigned (8 * p.unitSize.byteCount)
          (toSigned (8 * p.unitSize.byteCount) p.sign (valueBE 2 ub))))).flatten

/-- Embedding of `bitarray.tobytes()` as used at SHA2_512.py line 90: the
bit buffer is padded with zero bits at the end up to a byte boundary and
read as bytes, 8 bits per byte, most significant bit first. -/
def bitArrayToBytes (bits : List Nat) : List Nat :=
  (chunks 7 (bits ++ List.replicate ((8 - bits.length % 8) % 8) 0)).map (valueBE 2)

/-- The 2^64 modulus of SHA-512 word arithmetic. -/
def M64 : Nat := 18446744073709551616

/-- Right rotation of a 64-bit word by `n` bits (arithmetic form). -/
def rotr (n x : Nat) : Nat :=
  (x / 2 ^ n + x % 2 ^ n * 2 ^ (64 - n)) % M64

/-- SHA-512 big sigma-0 function (FIPS 180-4). -/
def bSig0 (x : Nat) : Nat := rotr 28 x ^^^ rotr 34 x ^^^ rotr 39 x

/-- SHA-512 big sigma-1 function (FIPS 180-4). -/
def bSig1 (x : Nat) : Nat := rotr 14 x ^^^ rotr 18 x ^^^ rotr 41 x

/-- SHA-512 small sigma-0 function (FIPS 180-4). -/
def sSig0 (x : Nat) : Nat := rotr 1 x ^^^ rotr 8 x ^^^ x / 2 ^ 7

/-- SHA-512 small sigma-1 function (FIPS 180-4). -/
def sSig1 (x : Nat) : Nat := rotr 19 x ^^^ rotr 61 x ^^^ x / 2 ^ 6

/-- SHA-512 choice function. -/
def chFn (x y z : Nat) : Nat := (x &&& y) ^^^ ((x ^^^ (M64 - 1)) &&& z)

/-- SHA-512 majority function. -/
def majFn (x y z : Nat) : Nat := (x &&& y) ^^^ (x &&& z) ^^^ (y &&& z)

/-- SHA-512 round constants (FIPS 180-4: the first 64 bits of the
fractional parts of the cube roots of the first 80 primes). -/
def K512 : List Nat :=
  [4794697086780616226, 8158064640168781261, 13096744586834688815,
   16840607885511220156, 4131703408338449720, 6480981068601479193,
   10538285296894168987, 12329834152419229976, 15566598209576043074,
   1334009975649890238, 2608012711638119052, 6128411473006802146,
   8268148722764581231, 9286055187155687089, 11230858885718282805,
   13951009754708518548, 16472876342353939154, 17275323862435702243,
   1135362057144423861, 2597628984639134821, 3308224258029322869,
   5365058923640841347, 6679025012923562964, 8573033837759648693,
   10970295158949994411, 12119686244451234320, 12683024718118986047,
   13788192230050041572, 14330467153632333762, 15395433587784984357,
   489312712824947311, 1452737877330783856, 2861767655752347644,
   3322285676063803686, 5560940570517711597, 5996557281743188959,
   7280758554555802590, 8532644243296465576, 9350256976987008742,
   10552545826968843579, 11727347734174303076, 12113106623233404929,
   14000437183269869457, 14369950271660146224, 15101387698204529176,
   15463397548674623760, 17586052441742319658, 1182934255886127544,
   1847814050463011016, 2177327727835720531, 2830643537854262169,
   3796741975233480872, 4115178125766777443, 5681478168544905931,
   6601373596472566643, 7507060721942968483, 8399075790359081724,
   8693463985226723168, 9568029438360202098, 10144078919501101548,
   10430055236837252648, 11840083180663258601, 13761210420658862357,
   14299343276471374635, 14566680578165727644, 15097957966210449927,
   16922976911328602910, 17689382322260857208, 500013540394364858,
   748580250866718886, 1242879168328830382, 1977374033974150939,
   2944078676154940804, 3659926193048069267, 4368137639120453308,
   4836135668995329356, 5532061633213252278, 6448918945643986474,
   6902733635092675308, 7801388544844847127]

/-- Working state of the SHA-512 compression function: eight 64-bit words. -/
structure Sha8 where
  a : Nat
  b : Nat
  c : Nat
  d : Nat
  e : Nat
  f : Nat
  g : Nat
  h : Nat
deriving Repr, DecidableEq

/-- SHA-512 initial hash value (FIPS 180-4). -/
def sha512Init : Sha8 :=
  { a := 0x6a09e667f3bcc908, b := 0xbb67ae8584caa73b,
    c := 0x3c6ef372fe94f82b, d := 0xa54ff53a5f1d36f1,
    e := 0x510e527fade682d1, f := 0x9b05688c2b3e6c1f,
    g := 0x1f83d9abfb41bd6b, h := 0x5be0cd19137e2179 }

/-- One step of the SHA-512 message-schedule extension, on the reversed
schedule (most recent word first): `w[t] = sigma1(w[t-2]) + w[t-7] +
sigma0(w[t-15]) + w[t-16] mod 2^64`. -/
def schedStep (rev : List Nat) : Nat :=
  (sSig1 (rev.getD 1 0) + rev.getD 6 0 + sSig0 (rev.getD 14 0) + rev.getD 15 0) % M64

/-- Iterated message-schedule extension on the reversed schedule. -/
def schedExtend : Nat → List Nat → List Nat
  | 0, rev => rev
  | n + 1, rev => schedExtend n (schedStep rev :: rev)

/-- Full 80-word SHA-512 message schedule from the 16 block words. -/
def schedule (w16 : List Nat) : List Nat :=
  (schedExtend 64 w16.reverse).reverse

/-- One SHA-512 round, consuming a `(constant, schedule word)` pair. -/
def shaRound (st : Sha8) (kw : Nat × Nat) : Sha8 :=
  let t1 := (st.h + bSig1 st.e + chFn st.e st.f st.g + kw.1 + kw.2) % M64
  let t2 := (bSig0 st.a + majFn st.a st.b st.c) % M64
  { a := (t1 + t2) % M64, b := st.a, c := st.b, d := st.c,
    e := (st.d + t1) % M64, f := st.e, g := st.f, h := st.g }

/-- SHA-512 compression of one 128-byte block into the running state. -/
def compressBlock (st : Sha8) (block : List Nat) : Sha8 :=
  let w := schedule ((chunks 7 block).map (valueBE 256))
  let fin := (K512.zip w).foldl shaRound st
  { a := (st.a + fin.a) % M64, b := (st.b + fin.b) % M64,
    c := (st.c + fin.c) % M64, d := (st.d + fin.d) % M64,
    e := (st.e + fin.e) % M64, f := (st.f + fin.f) % M64,
    g := (st.g + fin.g) % M64, h := (st.h + fin.h) % M64 }

/-- SHA-512 padding: append the 0x80 byte, zero bytes up to 112 mod 128,
and the 16-byte big-endian bit length. -/
def padMessage (msg : List Nat) : List Nat :=
  msg ++ (128 :: List.replicate ((128 - (msg.length + 17) % 128) % 128) 0) ++
    digitsBE 256 16 (8 * msg.length)

/-- Big-endian byte serialisation of the final SHA-512 state. -/
def shaOutput (st : Sha8) : List Nat :=
  digitsBE 256 8 st.a ++ digitsBE 256 8 st.b ++ digitsBE 256 8 st.c ++
  digitsBE 256 8 st.d ++ digitsBE 256 8 st.e ++ digitsBE 256 8 st.f ++
  digitsBE 256 8 st.g ++ digitsBE 256 8 st.h

/-- SHA-512 of a byte list (FIPS 180-4), the embedding of
`hashlib.new("sha512")` as invoked at SHA2_512.py lines 93-95. -/
def sha512 (msg : List Nat) : List Nat :=
  shaOutput ((chunks 127 (padMessage msg)).foldl compressBlock sha512Init)

/-- Embedding of `SHA2_512.relationOperation` (SHA2_512.py lines 87-105):
the input `BitArray` is converted to bytes with `tobytes()`, hashed with
SHA-512, and the digest converted from `Raw` back to a `BitArray` under the
output dataType's declared unit size, endianness and sign. -/
def relationOperation (p : TypeParams) (msg : List Nat) : List Nat :=
  rawToBitArray p (sha512 (bitArrayToBytes msg))

end Netzob

namespace Netzob

theorem generate_error (m : MutatorState) (h : m.counterMax ≤ m.currentCounter) :
    Mutator.generate m = (Except.error "Max mutation counter reached", m) := by
  simp [Mutator.generate, h]

theorem generate_ok (m : MutatorState) (h : m.currentCounter < m.counterMax) :
    Mutator.generate m =
      (Except.ok (), { m with currentCounter := m.currentCounter + 1 }) := by
  simp [Mutator.generate, not_le.mpr h]

theorem generateSteps_ok (k : Nat) (m : MutatorState)
    (h : m.currentCounter + k ≤ m.counterMax) :
    generateSteps k m =
      (Except.ok (), { m with currentCounter := m.currentCounter + k }) := by
  induction k generalizing m with
  | zero =>
    simp [generateSteps]
  | succ n ih =>
    have hlt : m.currentCounter < m.counterMax := by omega
    have hstep := generate_ok m hlt
    have hrec := ih { m with currentCounter := m.currentCounter + 1 } (by simp; omega)
    simp only [generateSteps, hstep, hrec, Prod.mk.injEq, MutatorState.mk.injEq,
      true_and]
    push_cast
    omega

theorem generateSteps_split (a b : Nat) (m : MutatorState) :
    generateSteps (a + b) m =
      match generateSteps a m with
      | (Except.ok _, m2) => generateSteps b m2
      | (Except.error e, m2) => (Except.error e, m2) := by
  induction a generalizing m with
  | zero =>
    simp [generateSteps]
  | succ n ih =>
    have : n + 1 + b = (n + b) + 1 := by omega
    rw [this]
    simp only [generateSteps]
    cases hg : Mutator.generate m with
    | mk r m2 =>
      cases r with
      | ok u => simp [ih]
      | error e => simp

end Netzob

namespace Netzob

/-- C1: a Mutator with `counterMax = N` (N ≥ 0, expressed by `N : Nat`) and
`currentCounter = 0` succeeds on `generate()` exactly N times, each success
incrementing `currentCounter` by 1; the (N+1)th call raises the
budget-exhausted exception with the exhaustion check performed before any
mutation, so the state after the failing call still has
`currentCounter = N`; and after `reset()` the calls succeed again starting
from call 1, exactly as from the initial state. -/
theorem C1_budget_enforcement (N : Nat) (m : MutatorState)
    (hmax : m.counterMax = (N : Int)) (hctr : m.currentCounter = 0) :
    (∀ i : Nat, i < N →
        generateSteps (i + 1) m =
          (Except.ok (), { m with currentCounter := (i : Int) + 1 })) ∧
    generateSteps N m = (Except.ok (), { m with currentCounter := (N : Int) }) ∧
    generateSteps (N + 1) m =
      (Except.error "Max mutation counter reached",
        { m with currentCounter := (N : Int) }) ∧
    (∀ i : Nat, i ≤ N →
        generateSteps i (reset (generateSteps (N + 1) m).2) =
          (Except.ok (), { m with currentCounter := (i : Int) })) := by
  have hok : ∀ i : Nat, i ≤ N →
      generateSteps i m = (Except.ok (), { m with currentCounter := (i : Int) }) := by
    intro i hi
    have h1 := generateSteps_ok i m (by rw [hctr, hmax]; omega)
    rw [h1, hctr]
    simp
  have h2 := hok N le_rfl
  have h3 : generateSteps (N + 1) m =
      (Except.error "Max mutation counter reached",
        { m with currentCounter := (N : Int) }) := by
    rw [generateSteps_split N 1 m, h2]
    have herr := generate_error { m with currentCounter := (N : Int) }
      (by simp [hmax])
    simp [generateSteps, herr]
  refine ⟨fun i hi => hok (i + 1) (by omega), h2, h3, ?_⟩
  intro i hi
  have hres : reset (generateSteps (N + 1) m).2 = m := by
    rw [h3]
    simp only [reset]
    rw [← hctr]
  rw [hres]
  exact hok i hi

/-- C1 witness: with seed 10 and budget 2, two calls succeed and the third
raises the budget-exhausted exception leaving the counter at 2. -/
theorem C1_budget_enforcement_witness :
    generateSteps 2 (mkMutator 10 2) =
      (Except.ok (), { mkMutator 10 2 with currentCounter := 2 }) ∧
    generateSteps 3 (mkMutator 10 2) =
      (Except.error "Max mutation counter reached",
        { mkMutator 10 2 with currentCounter := 2 }) :=
  ⟨(C1_budget_enforcement 2 (mkMutator 10 2) rfl rfl).2.1,
   (C1_budget_enforcement 2 (mkMutator 10 2) rfl rfl).2.2.1⟩

/-- C7: `StringMutator.mutate(data)` always raises the not-implemented
exception, never returns a value and leaves the state unchanged: the
mutator is generative-only. -/
theorem C7_mutate_not_implemented {G D : Type} (s : StringMutatorState G) (data : D) :
    StringMutator.mutate s data = (Except.error "NotImplementedError", s) ∧
    ∀ v : List Nat, (StringMutator.mutate s data).1 ≠ Except.ok v := by
  refine ⟨rfl, fun v h => ?_⟩
  simp [StringMutator.mutate] at h

/-- C8: both `reset()` and `resetCurrentCounter()` set `currentCounter` to 0
and leave the seed, the current generator state and the budget unchanged. -/
theorem C8_reset_frame (m : MutatorState) :
    (reset m).currentCounter = 0 ∧ (reset m).seed = m.seed ∧
    (reset m).currentState = m.currentState ∧
    (reset m).counterMax = m.counterMax ∧
    (resetCurrentCounter m).currentCounter = 0 ∧
    (resetCurrentCounter m).seed = m.seed ∧
    (resetCurrentCounter m).currentState = m.currentState ∧
    (resetCurrentCounter m).counterMax = m.counterMax :=
  ⟨rfl, rfl, rfl, rfl, rfl, rfl, rfl, rfl⟩

/-- C9: a `StringMutator.generate()` call at `currentCounter ≥ counterMax`
raises the budget-exhausted exception and leaves the state entirely
unchanged: the counter is not incremented (the inherited check precedes the
increment) and the composed string generator is not advanced (the check
runs before `next()`); the same holds at the base `Mutator` level, and a
repeated call fails identically, so exhaustion is absorbing until an
explicit reset. -/
theorem C9_exhaustion_frame {G V : Type} (next : G → List Nat × G)
    (decode : List Nat → V) (s : StringMutatorState G)
    (h : s.base.counterMax ≤ s.base.currentCounter) :
    StringMutator.generate next decode s =
      (Except.error "Max mutation counter reached", s) ∧
    Mutator.generate s.base =
      (Except.error "Max mutation counter reached", s.base) ∧
    StringMutator.generate next decode
        (StringMutator.generate next decode s).2 =
      (Except.error "Max mutation counter reached", s) := by
  have hb := generate_error s.base h
  have h1 : StringMutator.generate next decode s =
      (Except.error "Max mutation counter reached", s) := by
    simp [StringMutator.generate, hb]
  refine ⟨h1, hb, ?_⟩
  rw [h1]
  exact h1

/-- C9 witness: a string mutator with budget 0 over a generator modelled as
a counter at position 5 fails and the generator stays at position 5. -/
theorem C9_exhaustion_frame_witness :
    StringMutator.generate (fun g => ([1], g + 1)) (fun v => v)
        (StringMutatorState.mk (mkMutator 10 0) (5 : Nat)) =
      (Except.error "Max mutation counter reached",
        StringMutatorState.mk (mkMutator 10 0) 5) :=
  (C9_exhaustion_frame (fun g => ([1], g + 1)) (fun v => v)
    (StringMutatorState.mk (mkMutator 10 0) (5 : Nat)) (by decide)).1

/-- C10: `updateSeed(value)` modifies only the seed: counter, generator
state and budget are unchanged, and in particular the outcome of a
subsequent `generate()` call is the same as without the reseed, so an
exhausted budget is not renewed. -/
theorem C10_updateSeed_frame (m : MutatorState) (v : Int) :
    (updateSeed m v).seed = v ∧
    (updateSeed m v).currentCounter = m.currentCounter ∧
    (updateSeed m v).currentState = m.currentState ∧
    (updateSeed m v).counterMax = m.counterMax ∧
    (Mutator.generate (updateSeed m v)).1 = (Mutator.generate m).1 := by
  refine ⟨rfl, rfl, rfl, rfl, ?_⟩
  by_cases h : m.counterMax ≤ m.currentCounter <;>
    simp [Mutator.generate, updateSeed, h]

end Netzob

namespace Netzob

/-- C2: the effective length bounds of a StringMutator are the byte-wise
intersection of the caller interval and the domain's declared size when
both are finite pairs of ints, and the defaults (2, 10) apply when neither
is available; however, construction does not always succeed on a caller
interval of `(None, None)`: when the domain declares finite byte-size
bounds, the code evaluates `max(None, int)` and raises `TypeError`, so for
a domain declaring `nbChars=(35, 60)` (bit size `(280, 480)`) the bounds
computation fails instead of yielding `(35, 60)`. -/
theorem C2_bounds_type_error :
    initializeGeneratorBounds (PyVal.ptuple [PyVal.pnone, PyVal.pnone])
        (PyVal.ptuple [PyVal.pint 280, PyVal.pint 480]) =
      Except.error "TypeError" ∧
    (∀ a b d0 d1 : Int,
        initializeGeneratorBounds (PyVal.ptuple [PyVal.pint a, PyVal.pint b])
            (PyVal.ptuple [PyVal.pint d0, PyVal.pint d1]) =
          Except.ok (max a (Int.tdiv d0 8), min b (Int.tdiv d1 8))) ∧
    (∀ a b : Int,
        initializeGeneratorBounds (PyVal.ptuple [PyVal.pint a, PyVal.pint b])
            PyVal.pnone =
          Except.ok (a, b)) ∧
    initializeGeneratorBounds (PyVal.ptuple [PyVal.pnone, PyVal.pnone])
        PyVal.pnone =
      Except.ok (2, 10) := by
  refine ⟨rfl, ?_, ?_, rfl⟩
  · intro a b d0 d1
    rfl
  · intro a b
    rfl

/-- C6 counterexample: a tuple of strings is a sequence of strings, yet the
setter does not store it — the default dictionary is stored instead — so
the claim that a sequence of strings is always stored fails. -/
theorem C6_seq_of_strings_counterexample :
    isSeqOfStrings (PyVal.ptuple [PyVal.pstr "AAAA"]) = true ∧
    naughtyStringsSetter (PyVal.ptuple [PyVal.pstr "AAAA"]) =
      PyVal.plist DEFAULT_NAUGHTY_STRINGS ∧
    naughtyStringsSetter (PyVal.ptuple [PyVal.pstr "AAAA"]) ≠
      PyVal.ptuple [PyVal.pstr "AAAA"] :=
  ⟨rfl, rfl, fun h => PyVal.noConfusion h⟩

/-- C6 (amended): the `naughtyStrings` setter never raises; every value
that is not a `list` object — including non-sequences and tuples of
strings — results in the default naughty-string dictionary being stored,
and every `list`, whatever the types of its elements, is stored as
given. -/
theorem C6_list_fallback :
    (∀ v : PyVal, isPyList v = false →
        naughtyStringsSetter v = PyVal.plist DEFAULT_NAUGHTY_STRINGS) ∧
    (∀ xs : List PyVal, naughtyStringsSetter (PyVal.plist xs) = PyVal.plist xs) := by
  constructor
  · intro v hv
    simp [naughtyStringsSetter, hv]
  · intro xs
    rfl

/-- C6 witness: an `int` value falls back to the default dictionary and a
list of ints is stored as given. -/
theorem C6_list_fallback_witness :
    naughtyStringsSetter (PyVal.pint 3) = PyVal.plist DEFAULT_NAUGHTY_STRINGS ∧
    naughtyStringsSetter (PyVal.plist [PyVal.pint 1]) =
      PyVal.plist [PyVal.pint 1] :=
  ⟨C6_list_fallback.1 (PyVal.pint 3) rfl, C6_list_fallback.2 [PyVal.pint 1]⟩

end Netzob

namespace Netzob

/-- C5: generation is a deterministic function of the configuration
`(seed, minValue, maxValue, bitsize, signed)`: two independently
constructed Generators with identical configurations produce identical
value sequences element by element, with no hidden input. -/
theorem C5_generator_determinism (c1 c2 : GeneratorConfig)
    (hseed : c1.seed = c2.seed) (hmin : c1.minValue = c2.minValue)
    (hmax : c1.maxValue = c2.maxValue) (hbits : c1.bitsize = c2.bitsize)
    (hsigned : c1.signed = c2.signed) :
    ∀ n : Nat,
      Generator.run (buildGenerator c1) n = Generator.run (buildGenerator c2) n := by
  have hc : c1 = c2 := by
    cases c1
    cases c2
    simp_all
  subst hc
  intro n
  rfl

/-- C5 witness: two generators built independently from the configuration
(seed 10, bounds [0, 255], 8 bits, unsigned) agree on their first seven
values. -/
theorem C5_generator_determinism_witness :
    Generator.run (buildGenerator (GeneratorConfig.mk 10 0 255 8 false)) 7 =
      Generator.run (buildGenerator (GeneratorConfig.mk 10 0 255 8 false)) 7 :=
  C5_generator_determinism (GeneratorConfig.mk 10 0 255 8 false)
    (GeneratorConfig.mk 10 0 255 8 false) rfl rfl rfl rfl rfl 7

end Netzob

namespace Netzob

theorem length_digitsBE (B : Nat) : ∀ (k v : Nat), (digitsBE B k v).length = k := by
  intro k
  induction k with
  | zero => intro v; rfl
  | succ k ih => intro v; simp [digitsBE, ih]

theorem digitsBE_lt (B : Nat) (hB : 0 < B) :
    ∀ (k v : Nat), ∀ d ∈ digitsBE B k v, d < B := by
  intro k
  induction k with
  | zero => intro v d hd; simp [digitsBE] at hd
  | succ k ih =>
    intro v d hd
    simp only [digitsBE, List.mem_cons] at hd
    rcases hd with rfl | hd
    · exact Nat.mod_lt _ hB
    · exact ih _ d hd

theorem valueBE_foldl (B : Nat) (l : List Nat) :
    ∀ a : Nat, l.foldl (fun x d => B * x + d) a = a * B ^ l.length + valueBE B l := by
  induction l with
  | nil => intro a; simp [valueBE]
  | cons d t ih =>
    intro a
    have hv : valueBE B (d :: t) = d * B ^ t.length + valueBE B t := by
      show List.foldl _ (B * 0 + d) t = _
      rw [ih (B * 0 + d)]
      ring_nf
    simp only [List.foldl, List.length_cons]
    rw [ih (B * a + d), hv]
    ring

theorem valueBE_cons (B d : Nat) (t : List Nat) :
    valueBE B (d :: t) = d * B ^ t.length + valueBE B t := by
  show List.foldl _ (B * 0 + d) t = _
  rw [valueBE_foldl]
  ring_nf

theorem valueBE_lt (B : Nat) (l : List Nat) (h : ∀ d ∈ l, d < B) :
    valueBE B l < B ^ l.length := by
  induction l with
  | nil => simp [valueBE]
  | cons d t ih =>
    have h1 : valueBE B t < B ^ t.length :=
      ih fun x hx => h x (List.mem_cons_of_mem d hx)
    have h2 : d < B := h d (List.mem_cons_self d t)
    rw [valueBE_cons]
    calc d * B ^ t.length + valueBE B t < d * B ^ t.length + B ^ t.length := by omega
      _ = (d + 1) * B ^ t.length := by ring
      _ ≤ B * B ^ t.length := Nat.mul_le_mul_right _ (by omega)
      _ = B ^ (t.length + 1) := by ring

theorem valueBE_digitsBE (B : Nat) : ∀ (k v : Nat),
    valueBE B (digitsBE B k v) = v % B ^ k := by
  intro k
  induction k with
  | zero => intro v; simp [digitsBE, valueBE, Nat.mod_one]
  | succ k ih =>
    intro v
    simp only [digitsBE]
    rw [valueBE_cons, length_digitsBE, ih]
    rw [Nat.mod_mod_of_dvd _ (dvd_refl _)]
    rw [pow_succ, Nat.mod_mul]
    ring

theorem digitsBE_valueBE (B : Nat) (hB : 0 < B) (l : List Nat)
    (h : ∀ d ∈ l, d < B) : digitsBE B l.length (valueBE B l) = l := by
  induction l with
  | nil => rfl
  | cons d t ih =>
    have hd : d < B := h d (List.mem_cons_self d t)
    have ht : ∀ x ∈ t, x < B := fun x hx => h x (List.mem_cons_of_mem d hx)
    have hvt : valueBE B t < B ^ t.length := valueBE_lt B t ht
    rw [valueBE_cons]
    show digitsBE B (t.length + 1) _ = _
    simp only [digitsBE]
    have hdiv : (d * B ^ t.length + valueBE B t) / B ^ t.length = d := by
      rw [Nat.mul_comm d, Nat.mul_add_div (pow_pos hB _), Nat.div_eq_of_lt hvt]
      omega
    have hmod : (d * B ^ t.length + valueBE B t) % B ^ t.length = valueBE B t := by
      rw [Nat.add_comm, Nat.mul_comm d, Nat.add_mul_mod_self_left,
        Nat.mod_eq_of_lt hvt]
    rw [hdiv, hmod, Nat.mod_eq_of_lt hd, ih ht]

end Netzob

namespace Netzob

theorem chunksAux_fuel {α : Type} (k : Nat) :
    ∀ (f : Nat) (l : List α), l.length ≤ f →
      chunksAux k f l = chunksAux k l.length l := by
  intro f
  induction f using Nat.strong_induction_on with
  | _ f ih =>
    intro l hl
    cases l with
    | nil => cases f <;> rfl
    | cons x xs =>
      cases f with
      | zero => simp at hl
      | succ f2 =>
        have hl2 : xs.length ≤ f2 := by simp at hl; omega
        have hd2 : (xs.drop k).length ≤ f2 := by
          simp only [List.length_drop]
          omega
        have hdlen : (xs.drop k).length ≤ xs.length := by
          simp only [List.length_drop]
          omega
        show (x :: xs.take k) :: chunksAux k f2 (xs.drop k) =
          (x :: xs.take k) :: chunksAux k xs.length (xs.drop k)
        rw [ih f2 (by omega) (xs.drop k) hd2,
          ih xs.length (by omega) (xs.drop k) hdlen]

theorem chunks_cons {α : Type} (k : Nat) (x : α) (xs : List α) :
    chunks k (x :: xs) = (x :: xs.take k) :: chunks k (xs.drop k) := by
  show chunksAux k (xs.length + 1) (x :: xs) = _
  show (x :: xs.take k) :: chunksAux k xs.length (xs.drop k) = _
  rw [chunksAux_fuel k xs.length (xs.drop k) (by simp [List.length_drop])]
  rfl

theorem chunks_append {α : Type} (k : Nat) (l1 l2 : List α)
    (h : l1.length = k + 1) :
    chunks k (l1 ++ l2) = l1 :: chunks k l2 := by
  cases l1 with
  | nil => simp at h
  | cons x xs =>
    have hxs : xs.length = k := by simpa using h
    rw [List.cons_append, chunks_cons]
    subst hxs
    rw [List.take_left, List.drop_left]

theorem chunks_flatten {α : Type} (k : Nat) :
    ∀ (q : Nat) (l : List α), l.length = (k + 1) * q →
      (chunks k l).flatten = l ∧ ∀ u ∈ chunks k l, u.length = k + 1 := by
  intro q
  induction q with
  | zero =>
    intro l hl
    have : l = [] := List.eq_nil_of_length_eq_zero (by omega)
    subst this
    exact ⟨rfl, by simp [chunks, chunksAux]⟩
  | succ q ih =>
    intro l hl
    rw [Nat.mul_succ] at hl
    cases l with
    | nil => simp at hl; omega
    | cons x xs =>
      have hxlen : xs.length = k + (k + 1) * q := by simp at hl; omega
      have hdrop : (xs.drop k).length = (k + 1) * q := by
        simp only [List.length_drop]
        omega
      have htake : (xs.take k).length = k := by
        simp only [List.length_take]
        omega
      obtain ⟨h1, h2⟩ := ih (xs.drop k) hdrop
      rw [chunks_cons]
      constructor
      · simp only [List.flatten_cons, h1, List.cons_append, List.take_append_drop]
      · intro u hu
        rcases List.mem_cons.mp hu with rfl | hu2
        · simp [htake]
        · exact h2 u hu2

end Netzob

namespace Netzob

theorem orient_length {α : Type} (e : Endianness) (l : List α) :
    (orient e l).length = l.length := by
  cases e <;> simp [orient]

theorem orient_mem {α : Type} (e : Endianness) (l : List α) (x : α) :
    x ∈ orient e l ↔ x ∈ l := by
  cases e <;> simp [orient]

theorem orient_orient {α : Type} (e : Endianness) (l : List α) :
    orient e (orient e l) = l := by
  cases e <;> simp [orient]

theorem byteCount_pos (u : UnitSize) : 0 < u.byteCount := by
  cases u <;> simp [UnitSize.byteCount]

theorem fromSigned_toSigned (bits : Nat) (s : Sign) (v : Nat)
    (h : v < 2 ^ bits) : fromSigned bits (toSigned bits s v) = v := by
  have hc : (v : Int) < (2 : Int) ^ bits := by exact_mod_cast h
  have hmod : (v : Int) % (2 : Int) ^ bits = (v : Int) :=
    Int.emod_eq_of_lt (by positivity) hc
  cases s with
  | unsigned =>
    simp only [toSigned, fromSigned, hmod, Int.toNat_natCast]
  | signed =>
    by_cases hge : 2 ^ (bits - 1) ≤ v
    · have h1 : ((v : Int) - 2 ^ bits) % 2 ^ bits = (v : Int) % 2 ^ bits := by
        rw [Int.sub_emod, Int.emod_self, sub_zero,
          Int.emod_emod_of_dvd _ (dvd_refl _)]
      simp only [toSigned, fromSigned, if_pos hge, h1, hmod, Int.toNat_natCast]
    · simp only [toSigned, fromSigned, if_neg hge, hmod, Int.toNat_natCast]

theorem unitToVal_lt (e : Endianness) (u : List Nat) (hb : ∀ b ∈ u, b < 256) :
    unitToVal e u < 2 ^ (8 * u.length) := by
  have h1 : unitToVal e u < 256 ^ (orient e u).length :=
    valueBE_lt 256 (orient e u) fun d hd => hb d ((orient_mem e u d).mp hd)
  rw [orient_length] at h1
  calc unitToVal e u < 256 ^ u.length := h1
    _ = 2 ^ (8 * u.length) := by
      rw [show (256 : Nat) = 2 ^ 8 by norm_num, ← pow_mul]

theorem decode_unit (p : TypeParams) (u : List Nat)
    (hu : u.length = p.unitSize.byteCount) (hb : ∀ b ∈ u, b < 256) :
    valToUnit p.endianness p.unitSize.byteCount
      (fromSigned (8 * p.unitSize.byteCount)
        (toSigned (8 * p.unitSize.byteCount) p.sign
          (valueBE 2
            (digitsBE 2 (8 * p.unitSize.byteCount) (unitToVal p.endianness u))))) =
      u := by
  have hval : unitToVal p.endianness u < 2 ^ (8 * p.unitSize.byteCount) := by
    rw [← hu]
    exact unitToVal_lt p.endianness u hb
  rw [valueBE_digitsBE, Nat.mod_eq_of_lt hval,
    fromSigned_toSigned _ _ _ hval]
  show orient p.endianness
      (digitsBE 256 p.unitSize.byteCount (valueBE 256 (orient p.endianness u))) = u
  have hol : (orient p.endianness u).length = p.unitSize.byteCount := by
    rw [orient_length, hu]
  rw [← hol, digitsBE_valueBE 256 (by norm_num) _
    (fun d hd => hb d ((orient_mem p.endianness u d).mp hd))]
  exact orient_orient p.endianness u

theorem decode_encode_units (p : TypeParams) :
    ∀ us : List (List Nat),
      (∀ u ∈ us, u.length = p.unitSize.byteCount ∧ ∀ b ∈ u, b < 256) →
      bitArrayToRaw p
        ((us.map (fun u =>
          digitsBE 2 (8 * p.unitSize.byteCount) (unitToVal p.endianness u))).flatten) =
        us.flatten := by
  intro us
  induction us with
  | nil => intro _; rfl
  | cons u us ih =>
    intro h
    have hu : u.length = p.unitSize.byteCount := (h u (List.mem_cons_self u us)).1
    have hb : ∀ b ∈ u, b < 256 := (h u (List.mem_cons_self u us)).2
    have hrest : ∀ x ∈ us, x.length = p.unitSize.byteCount ∧ ∀ b ∈ x, b < 256 :=
      fun x hx => h x (List.mem_cons_of_mem u hx)
    have hpos : 0 < p.unitSize.byteCount := byteCount_pos p.unitSize
    have hlen : (digitsBE 2 (8 * p.unitSize.byteCount)
        (unitToVal p.endianness u)).length = (8 * p.unitSize.byteCount - 1) + 1 := by
      rw [length_digitsBE]
      omega
    simp only [List.map_cons, List.flatten_cons]
    show ((chunks (8 * p.unitSize.byteCount - 1) _).map _).flatten = _
    rw [chunks_append _ _ _ hlen]
    simp only [List.map_cons, List.flatten_cons]
    rw [decode_unit p u hu hb]
    congr 1
    exact ih hrest

theorem encode_units_length (p : TypeParams) :
    ∀ us : List (List Nat),
      ((us.map (fun u =>
        digitsBE 2 (8 * p.unitSize.byteCount) (unitToVal p.endianness u))).flatten).length =
        8 * p.unitSize.byteCount * us.length := by
  intro us
  induction us with
  | nil => rfl
  | cons u us ih =>
    simp only [List.map_cons, List.flatten_cons, List.length_append, ih,
      length_digitsBE, List.length_cons]
    ring

theorem flatten_length_of_uniform {α : Type} (c : Nat) :
    ∀ us : List (List α), (∀ u ∈ us, u.length = c) →
      us.flatten.length = c * us.length := by
  intro us
  induction us with
  | nil => intro _; rfl
  | cons u us ih =>
    intro h
    simp only [List.flatten_cons, List.length_append, List.length_cons,
      h u (List.mem_cons_self u us), ih fun x hx => h x (List.mem_cons_of_mem u hx)]
    ring

theorem shaOutput_length (st : Sha8) : (shaOutput st).length = 64 := by
  simp [shaOutput, length_digitsBE]

theorem sha512_length (m : List Nat) : (sha512 m).length = 64 :=
  shaOutput_length _

theorem shaOutput_lt (st : Sha8) : ∀ b ∈ shaOutput st, b < 256 := by
  intro b hb
  simp only [shaOutput, List.mem_append] at hb
  rcases hb with ((((((h | h) | h) | h) | h) | h) | h) | h <;>
    exact digitsBE_lt 256 (by norm_num) _ _ b h

theorem sha512_lt (m : List Nat) : ∀ b ∈ sha512 m, b < 256 :=
  shaOutput_lt _

end Netzob

namespace Netzob

theorem relationOperation_length (p : TypeParams) (msg : List Nat) :
    (relationOperation p msg).length = 512 := by
  have hbcpos := byteCount_pos p.unitSize
  have hbc1 : (p.unitSize.byteCount - 1) + 1 = p.unitSize.byteCount := by omega
  have hq : (sha512 (bitArrayToBytes msg)).length =
      ((p.unitSize.byteCount - 1) + 1) * (64 / p.unitSize.byteCount) := by
    rw [sha512_length, hbc1]
    cases p.unitSize <;> rfl
  obtain ⟨hflat, hchunk⟩ := chunks_flatten (p.unitSize.byteCount - 1) _ _ hq
  have henc := encode_units_length p
    (chunks (p.unitSize.byteCount - 1) (sha512 (bitArrayToBytes msg)))
  have h1 := flatten_length_of_uniform ((p.unitSize.byteCount - 1) + 1)
    (chunks (p.unitSize.byteCount - 1) (sha512 (bitArrayToBytes msg))) hchunk
  rw [hflat, sha512_length, hbc1] at h1
  calc (relationOperation p msg).length
      = 8 * p.unitSize.byteCount *
        (chunks (p.unitSize.byteCount - 1) (sha512 (bitArrayToBytes msg))).length :=
        henc
    _ = 8 * (p.unitSize.byteCount *
        (chunks (p.unitSize.byteCount - 1) (sha512 (bitArrayToBytes msg))).length) := by
        ring
    _ = 8 * 64 := by rw [← h1]
    _ = 512 := rfl

/-- C4: for every output dataType configuration (unit size, endianness,
sign), decoding the bit buffer returned by `SHA2_512.relationOperation`
under the same declared type parameters reconstructs exactly the 64 digest
bytes that the SHA-512 algorithm produced: the Raw-to-BitArray conversion
is round-trip-safe. -/
theorem C4_digest_roundtrip (p : TypeParams) (msg : List Nat) :
    bitArrayToRaw p (relationOperation p msg) = sha512 (bitArrayToBytes msg) := by
  have hbcpos := byteCount_pos p.unitSize
  have hbc1 : (p.unitSize.byteCount - 1) + 1 = p.unitSize.byteCount := by omega
  have hq : (sha512 (bitArrayToBytes msg)).length =
      ((p.unitSize.byteCount - 1) + 1) * (64 / p.unitSize.byteCount) := by
    rw [sha512_length, hbc1]
    cases p.unitSize <;> rfl
  obtain ⟨hflat, hchunk⟩ := chunks_flatten (p.unitSize.byteCount - 1) _ _ hq
  have hcond : ∀ u ∈ chunks (p.unitSize.byteCount - 1) (sha512 (bitArrayToBytes msg)),
      u.length = p.unitSize.byteCount ∧ ∀ b ∈ u, b < 256 := by
    intro u hu
    refine ⟨(hchunk u hu).trans hbc1, fun b hb => ?_⟩
    have hmem : b ∈ (chunks (p.unitSize.byteCount - 1)
        (sha512 (bitArrayToBytes msg))).flatten :=
      List.mem_flatten.mpr ⟨u, hu, hb⟩
    rw [hflat] at hmem
    exact sha512_lt _ b hmem
  calc bitArrayToRaw p (relationOperation p msg)
      = (chunks (p.unitSize.byteCount - 1) (sha512 (bitArrayToBytes msg))).flatten :=
        decode_encode_units p _ hcond
    _ = sha512 (bitArrayToBytes msg) := hflat

end Netzob

namespace Netzob

/-- C3: `SHA2_512.relationOperation` computes the SHA-512 digest of the
input buffer's byte content and its produced value is exactly 64 bytes
(512 bits) for every input and every output dataType configuration; for
the target bytes `aa bb` the digest is the SHA-512 of those two bytes,
beginning `13 86 8e 66 e1 0c 88 25 be 20 54 b8 fa 56 fa f0 69 38 a2 c6 a7
e8 e3 83 0f 0c 27 47 77 b0 43 1f` with the following byte starting with
nibble `1`, and reading the produced bit buffer back as plain bytes
recovers that digest. -/
theorem C3_sha512_digest :
    (∀ (p : TypeParams) (msg : List Nat), (relationOperation p msg).length = 512) ∧
    sha512 [0xaa, 0xbb] =
      [0x13, 0x86, 0x8e, 0x66, 0xe1, 0x0c, 0x88, 0x25,
       0xbe, 0x20, 0x54, 0xb8, 0xfa, 0x56, 0xfa, 0xf0,
       0x69, 0x38, 0xa2, 0xc6, 0xa7, 0xe8, 0xe3, 0x83,
       0x0f, 0x0c, 0x27, 0x47, 0x77, 0xb0, 0x43, 0x1f,
       0x19, 0x5e, 0x00, 0x1e, 0x68, 0x0b, 0x85, 0xc5,
       0x16, 0x16, 0xc3, 0x75, 0x8e, 0x86, 0xad, 0x3f,
       0xfe, 0xe8, 0x81, 0x60, 0x61, 0xb1, 0xa2, 0x6f,
       0xb0, 0x0c, 0x5a, 0x3c, 0x88, 0x27, 0xf2, 0x6f] ∧
    List.take 32 (sha512 [0xaa, 0xbb]) =
      [0x13, 0x86, 0x8e, 0x66, 0xe1, 0x0c, 0x88, 0x25,
       0xbe, 0x20, 0x54, 0xb8, 0xfa, 0x56, 0xfa, 0xf0,
       0x69, 0x38, 0xa2, 0xc6, 0xa7, 0xe8, 0xe3, 0x83,
       0x0f, 0x0c, 0x27, 0x47, 0x77, 0xb0, 0x43, 0x1f] ∧
    (sha512 [0xaa, 0xbb]).getD 32 0 / 16 = 1 ∧
    bitArrayToBytes
        (relationOperation
          (TypeParams.mk UnitSize.size8 Endianness.big Sign.unsigned)
          (rawToBitArray
            (TypeParams.mk UnitSize.size8 Endianness.big Sign.unsigned)
            [0xaa, 0xbb])) =
      sha512 [0xaa, 0xbb] := by
  refine ⟨relationOperation_length, ?_, ?_, ?_, ?_⟩
  · set_option maxRecDepth 10000 in decide
  · set_option maxRecDepth 10000 in decide
  · set_option maxRecDepth 10000 in decide
  · set_option maxRecDepth 10000 in decide

end Netzob
